import Mathlib

/- Verification development for the drug-image dataset transformation pipeline.

   The Python modules under src/data_pipeline and src/data_preprocess are
   shallowly embedded below. Pure arithmetic is modelled over ℚ (the exact
   arithmetic the formulas denote); Python `int()` truncation, `//` floor
   division and `round(x, 3)` are modelled explicitly. Python strings are
   modelled as lists of characters so that `split`/`replace` are computable
   and decidable. Randomised primitives (`random.shuffle`, `random.sample`)
   are modelled as explicit function parameters indexed by a call counter,
   constrained only by the properties the Python primitives guarantee
   (a shuffle permutes its input; a sample of size k is a sub-permutation
   of length min k n). -/

namespace DrugPipeline

/-- Python strings as character lists. -/
abbrev Str := List Char

/-- Python `int()` applied to a rational truncates toward zero. -/
def pyInt (q : ℚ) : ℤ := if q < 0 then ⌈q⌉ else ⌊q⌋

/- ===================================================================
   Geometry Transform
   (src/data_pipeline/data_preprocess/modules/preprocessing.py)
   =================================================================== -/

/-- Result record of `calculate_resize_params`. -/
structure ResizeParams where
  scale : ℚ
  newWidth : ℤ
  newHeight : ℤ
  padLeft : ℤ
  padTop : ℤ
  targetSize : ℤ
deriving DecidableEq, Repr

/-- `calculate_resize_params(width, height, target_size)` from preprocessing.py:
`scale = min(target_size / width, target_size / height)`,
`new_width = int(width * scale)`, `new_height = int(height * scale)`,
`pad_left = (target_size - new_width) // 2`, `pad_top = (target_size - new_height) // 2`. -/
def calculate_resize_params (width height targetSize : ℤ) : ResizeParams :=
  let scale : ℚ := min ((targetSize : ℚ) / (width : ℚ)) ((targetSize : ℚ) / (height : ℚ))
  let new_width : ℤ := pyInt ((width : ℚ) * scale)
  let new_height : ℤ := pyInt ((height : ℚ) * scale)
  let pad_left : ℤ := (targetSize - new_width).fdiv 2
  let pad_top : ℤ := (targetSize - new_height).fdiv 2
  ⟨scale, new_width, new_height, pad_left, pad_top, targetSize⟩

/-- The bbox update of `update_annotation_coords` from preprocessing.py:
`[x * scale + pad_left, y * scale + pad_top, w * scale, h * scale]`. -/
def remap_bbox (p : ResizeParams) (b : ℚ × ℚ × ℚ × ℚ) : ℚ × ℚ × ℚ × ℚ :=
  (b.1 * p.scale + (p.padLeft : ℚ), b.2.1 * p.scale + (p.padTop : ℚ),
   b.2.2.1 * p.scale, b.2.2.2 * p.scale)

lemma scale_pos {w h t : ℤ} (hw : 0 < w) (hh : 0 < h) (ht : 0 < t) :
    0 < min ((t : ℚ) / (w : ℚ)) ((t : ℚ) / (h : ℚ)) := by
  have hw' : (0 : ℚ) < (w : ℚ) := by exact_mod_cast hw
  have hh' : (0 : ℚ) < (h : ℚ) := by exact_mod_cast hh
  have ht' : (0 : ℚ) < (t : ℚ) := by exact_mod_cast ht
  exact lt_min (div_pos ht' hw') (div_pos ht' hh')

lemma dim_mul_scale_le {d : ℤ} (hd : 0 < d) {s t : ℚ} (hs : s ≤ t / (d : ℚ)) :
    (d : ℚ) * s ≤ t := by
  have hd' : (0 : ℚ) < (d : ℚ) := by exact_mod_cast hd
  have := mul_le_mul_of_nonneg_left hs hd'.le
  calc (d : ℚ) * s ≤ (d : ℚ) * (t / (d : ℚ)) := this
    _ = t := by rw [mul_comm, div_mul_cancel₀ _ (ne_of_gt hd')]

lemma pad_nonneg {f : ℚ} {t : ℤ} (hft : f ≤ (t : ℚ)) :
    0 ≤ (t - ⌊f⌋).fdiv 2 := by
  have hnt : ⌊f⌋ ≤ t := by simpa using Int.floor_le_floor hft
  rw [Int.fdiv_eq_ediv _ (by norm_num)]
  omega

/-- Core geometric fact: a scaled dimension plus the centering padding computed
by integer flooring never exceeds the target. -/
lemma floor_pad_le {f : ℚ} {t : ℤ} (hft : f ≤ (t : ℚ)) :
    f + (((t - ⌊f⌋).fdiv 2 : ℤ) : ℚ) ≤ (t : ℚ) := by
  have hn : ((⌊f⌋ : ℤ) : ℚ) ≤ f := Int.floor_le f
  have hn1 : f < ((⌊f⌋ : ℤ) : ℚ) + 1 := Int.lt_floor_add_one f
  have hnt : ⌊f⌋ ≤ t := by simpa using Int.floor_le_floor hft
  rw [Int.fdiv_eq_ediv _ (by norm_num)]
  rcases le_or_lt (t - ⌊f⌋) 1 with hk | hk
  · have hp0 : (t - ⌊f⌋) / 2 = 0 := by omega
    rw [hp0]
    push_cast
    linarith
  · have h2p : 2 * ((t - ⌊f⌋) / 2) ≤ t - ⌊f⌋ := by omega
    have h2 : 2 ≤ t - ⌊f⌋ := hk
    have hc : (2 : ℚ) * (((t - ⌊f⌋) / 2 : ℤ) : ℚ) ≤ ((t : ℚ) - ((⌊f⌋ : ℤ) : ℚ)) := by
      exact_mod_cast h2p
    have hc2 : (2 : ℚ) ≤ ((t : ℚ) - ((⌊f⌋ : ℤ) : ℚ)) := by exact_mod_cast h2
    linarith

/-- Claim C1: for an image with positive width/height, any box lying fully
inside the original image bounds (0 ≤ x, 0 ≤ y, x+w ≤ width, y+h ≤ height),
and any positive target size, remapping the box with the resize parameters
computed from the same dimensions keeps all four corners within
[0, targetSize]: x' ≥ 0, y' ≥ 0, x'+w' ≤ targetSize, y'+h' ≤ targetSize. -/
theorem remap_box_containment (width height targetSize : ℤ)
    (hwidth : 0 < width) (hheight : 0 < height) (htarget : 0 < targetSize)
    (x0 y0 w0 h0 : ℚ) (hx : 0 ≤ x0) (hy : 0 ≤ y0)
    (hxw : x0 + w0 ≤ (width : ℚ)) (hyh : y0 + h0 ≤ (height : ℚ)) :
    0 ≤ (remap_bbox (calculate_resize_params width height targetSize) (x0, y0, w0, h0)).1 ∧
    0 ≤ (remap_bbox (calculate_resize_params width height targetSize) (x0, y0, w0, h0)).2.1 ∧
    (remap_bbox (calculate_resize_params width height targetSize) (x0, y0, w0, h0)).1 +
      (remap_bbox (calculate_resize_params width height targetSize) (x0, y0, w0, h0)).2.2.1
      ≤ (targetSize : ℚ) ∧
    (remap_bbox (calculate_resize_params width height targetSize) (x0, y0, w0, h0)).2.1 +
      (remap_bbox (calculate_resize_params width height targetSize) (x0, y0, w0, h0)).2.2.2
      ≤ (targetSize : ℚ) := by
  have hs : 0 < min ((targetSize : ℚ) / (width : ℚ)) ((targetSize : ℚ) / (height : ℚ)) :=
    scale_pos hwidth hheight htarget
  set s : ℚ := min ((targetSize : ℚ) / (width : ℚ)) ((targetSize : ℚ) / (height : ℚ)) with hsdef
  have hfw : (width : ℚ) * s ≤ (targetSize : ℚ) :=
    dim_mul_scale_le hwidth (min_le_left _ _)
  have hfh : (height : ℚ) * s ≤ (targetSize : ℚ) :=
    dim_mul_scale_le hheight (min_le_right _ _)
  have hfw0 : 0 ≤ (width : ℚ) * s := by
    have : (0 : ℚ) ≤ (width : ℚ) := by exact_mod_cast hwidth.le
    exact mul_nonneg this hs.le
  have hfh0 : 0 ≤ (height : ℚ) * s := by
    have : (0 : ℚ) ≤ (height : ℚ) := by exact_mod_cast hheight.le
    exact mul_nonneg this hs.le
  have hpyw : pyInt ((width : ℚ) * s) = ⌊(width : ℚ) * s⌋ := if_neg (not_lt.mpr hfw0)
  have hpyh : pyInt ((height : ℚ) * s) = ⌊(height : ℚ) * s⌋ := if_neg (not_lt.mpr hfh0)
  have hpadL : (0 : ℚ) ≤ (((targetSize - ⌊(width : ℚ) * s⌋).fdiv 2 : ℤ) : ℚ) := by
    exact_mod_cast pad_nonneg hfw
  have hpadT : (0 : ℚ) ≤ (((targetSize - ⌊(height : ℚ) * s⌋).fdiv 2 : ℤ) : ℚ) := by
    exact_mod_cast pad_nonneg hfh
  have hsumL := floor_pad_le hfw
  have hsumT := floor_pad_le hfh
  have hxs : (x0 + w0) * s ≤ (width : ℚ) * s := mul_le_mul_of_nonneg_right hxw hs.le
  have hys : (y0 + h0) * s ≤ (height : ℚ) * s := mul_le_mul_of_nonneg_right hyh hs.le
  simp only [remap_bbox, calculate_resize_params, ← hsdef, hpyw, hpyh]
  refine ⟨?_, ?_, ?_, ?_⟩
  · exact add_nonneg (mul_nonneg hx hs.le) hpadL
  · exact add_nonneg (mul_nonneg hy hs.le) hpadT
  · nlinarith [hsumL]
  · nlinarith [hsumT]

/-- Witness for C1 at width 640, height 480, targetSize 1280, box (10, 20, 100, 50). -/
theorem remap_box_containment_witness :
    ((0 : ℤ) < 640 ∧ (0 : ℤ) < 480 ∧ (0 : ℤ) < 1280 ∧
      (0 : ℚ) ≤ 10 ∧ (0 : ℚ) ≤ 20 ∧ (10 : ℚ) + 100 ≤ 640 ∧ (20 : ℚ) + 50 ≤ 480) ∧
    (0 ≤ (remap_bbox (calculate_resize_params 640 480 1280) (10, 20, 100, 50)).1 ∧
     0 ≤ (remap_bbox (calculate_resize_params 640 480 1280) (10, 20, 100, 50)).2.1 ∧
     (remap_bbox (calculate_resize_params 640 480 1280) (10, 20, 100, 50)).1 +
       (remap_bbox (calculate_resize_params 640 480 1280) (10, 20, 100, 50)).2.2.1 ≤ (1280 : ℚ) ∧
     (remap_bbox (calculate_resize_params 640 480 1280) (10, 20, 100, 50)).2.1 +
       (remap_bbox (calculate_resize_params 640 480 1280) (10, 20, 100, 50)).2.2.2 ≤ (1280 : ℚ)) :=
  ⟨by norm_num,
   remap_box_containment 640 480 1280 (by norm_num) (by norm_num) (by norm_num)
     10 20 100 50 (by norm_num) (by norm_num) (by norm_num) (by norm_num)⟩

/-- Claim C5: `calculate_resize_params` realises the specified formulas:
scale = min(t/w, t/h), newWidth = ⌊w·scale⌋, newHeight = ⌊h·scale⌋,
padLeft = ⌊(t - newWidth)/2⌋, padTop = ⌊(t - newHeight)/2⌋; consequently
newWidth ≤ t, newHeight ≤ t, and the implied right/bottom paddings
(t - newWidth - padLeft and t - newHeight - padTop) are symmetric with the
left/top paddings within ±1 and sum with the scaled dimension to exactly t. -/
theorem calculate_resize_params_spec (width height targetSize : ℤ)
    (hwidth : 0 < width) (hheight : 0 < height) (htarget : 0 < targetSize) :
    (calculate_resize_params width height targetSize).scale
      = min ((targetSize : ℚ) / (width : ℚ)) ((targetSize : ℚ) / (height : ℚ)) ∧
    (calculate_resize_params width height targetSize).newWidth
      = ⌊(width : ℚ) * (calculate_resize_params width height targetSize).scale⌋ ∧
    (calculate_resize_params width height targetSize).newHeight
      = ⌊(height : ℚ) * (calculate_resize_params width height targetSize).scale⌋ ∧
    (calculate_resize_params width height targetSize).padLeft
      = ⌊((targetSize - (calculate_resize_params width height targetSize).newWidth : ℤ) : ℚ) / 2⌋ ∧
    (calculate_resize_params width height targetSize).padTop
      = ⌊((targetSize - (calculate_resize_params width height targetSize).newHeight : ℤ) : ℚ) / 2⌋ ∧
    (calculate_resize_params width height targetSize).newWidth ≤ targetSize ∧
    (calculate_resize_params width height targetSize).newHeight ≤ targetSize ∧
    ((calculate_resize_params width height targetSize).padLeft
      + (calculate_resize_params width height targetSize).newWidth
      + (targetSize - (calculate_resize_params width height targetSize).newWidth
          - (calculate_resize_params width height targetSize).padLeft) = targetSize) ∧
    (0 ≤ (targetSize - (calculate_resize_params width height targetSize).newWidth
          - (calculate_resize_params width height targetSize).padLeft)
          - (calculate_resize_params width height targetSize).padLeft ∧
     (targetSize - (calculate_resize_params width height targetSize).newWidth
          - (calculate_resize_params width height targetSize).padLeft)
          - (calculate_resize_params width height targetSize).padLeft ≤ 1) ∧
    (0 ≤ (targetSize - (calculate_resize_params width height targetSize).newHeight
          - (calculate_resize_params width height targetSize).padTop)
          - (calculate_resize_params width height targetSize).padTop ∧
     (targetSize - (calculate_resize_params width height targetSize).newHeight
          - (calculate_resize_params width height targetSize).padTop)
          - (calculate_resize_params width height targetSize).padTop ≤ 1) := by
  have hs : 0 < min ((targetSize : ℚ) / (width : ℚ)) ((targetSize : ℚ) / (height : ℚ)) :=
    scale_pos hwidth hheight htarget
  set s : ℚ := min ((targetSize : ℚ) / (width : ℚ)) ((targetSize : ℚ) / (height : ℚ)) with hsdef
  have hfw : (width : ℚ) * s ≤ (targetSize : ℚ) :=
    dim_mul_scale_le hwidth (min_le_left _ _)
  have hfh : (height : ℚ) * s ≤ (targetSize : ℚ) :=
    dim_mul_scale_le hheight (min_le_right _ _)
  have hfw0 : 0 ≤ (width : ℚ) * s := by
    have : (0 : ℚ) ≤ (width : ℚ) := by exact_mod_cast hwidth.le
    exact mul_nonneg this hs.le
  have hfh0 : 0 ≤ (height : ℚ) * s := by
    have : (0 : ℚ) ≤ (height : ℚ) := by exact_mod_cast hheight.le
    exact mul_nonneg this hs.le
  have hpyw : pyInt ((width : ℚ) * s) = ⌊(width : ℚ) * s⌋ := if_neg (not_lt.mpr hfw0)
  have hpyh : pyInt ((height : ℚ) * s) = ⌊(height : ℚ) * s⌋ := if_neg (not_lt.mpr hfh0)
  have hWt : ⌊(width : ℚ) * s⌋ ≤ targetSize := by simpa using Int.floor_le_floor hfw
  have hHt : ⌊(height : ℚ) * s⌋ ≤ targetSize := by simpa using Int.floor_le_floor hfh
  have hfdW : (targetSize - ⌊(width : ℚ) * s⌋).fdiv 2 = (targetSize - ⌊(width : ℚ) * s⌋) / 2 :=
    Int.fdiv_eq_ediv _ (by norm_num)
  have hfdH : (targetSize - ⌊(height : ℚ) * s⌋).fdiv 2 = (targetSize - ⌊(height : ℚ) * s⌋) / 2 :=
    Int.fdiv_eq_ediv _ (by norm_num)
  have hflW : ⌊(((targetSize - ⌊(width : ℚ) * s⌋ : ℤ)) : ℚ) / 2⌋
      = (targetSize - ⌊(width : ℚ) * s⌋) / 2 := by
    have := Rat.floor_intCast_div_natCast (targetSize - ⌊(width : ℚ) * s⌋) 2
    simpa using this
  have hflH : ⌊(((targetSize - ⌊(height : ℚ) * s⌋ : ℤ)) : ℚ) / 2⌋
      = (targetSize - ⌊(height : ℚ) * s⌋) / 2 := by
    have := Rat.floor_intCast_div_natCast (targetSize - ⌊(height : ℚ) * s⌋) 2
    simpa using this
  simp only [calculate_resize_params, ← hsdef, hpyw, hpyh]
  refine ⟨trivial, trivial, trivial, ?_, ?_, hWt, hHt, by ring, ?_, ?_⟩
  · rw [hflW, hfdW]
  · rw [hflH, hfdH]
  · rw [hfdW]
    omega
  · rw [hfdH]
    omega

/-- Witness for C5 at width 640, height 480, targetSize 1280. -/
theorem calculate_resize_params_spec_witness :
    ((0 : ℤ) < 640 ∧ (0 : ℤ) < 480 ∧ (0 : ℤ) < 1280) ∧
    ((calculate_resize_params 640 480 1280).newWidth ≤ 1280 ∧
     (calculate_resize_params 640 480 1280).newHeight ≤ 1280) :=
  ⟨by norm_num,
   ⟨(calculate_resize_params_spec 640 480 1280 (by norm_num) (by norm_num) (by norm_num)).2.2.2.2.2.1,
    (calculate_resize_params_spec 640 480 1280 (by norm_num) (by norm_num) (by norm_num)).2.2.2.2.2.2.1⟩⟩

/- ===================================================================
   Class-key extraction
   (src/data_pipeline/data_preprocess/modules/dataset_split.py and
    src/data_pipeline/pruning_dataset/modules/dataset_splitter.py)
   =================================================================== -/

/-- Python `s.split(sep)` for a single-character, non-empty separator. -/
def splitOnChar (c : Char) : Str → List Str
  | [] => [[]]
  | x :: xs =>
    if x = c then [] :: splitOnChar c xs
    else
      match splitOnChar c xs with
      | [] => [[x]]
      | y :: ys => (x :: y) :: ys

/-- `_extract_pill_code` from dataset_split.py. The surrounding `try/except`
cannot fire (both indexings are guarded and `split` never raises), so the
`'unknown'` fallback there is dead code: the function returns
`parts[1]` when the '-'-split has at least two parts and otherwise
`filename.split('_')[0]`. -/
def _extract_pill_code (filename : Str) : Str :=
  let parts := splitOnChar '-' filename
  if 2 ≤ parts.length then parts.getD 1 []
  else (splitOnChar '_' filename).getD 0 []

/-- The inline class-key extraction of `_balanced_sample` in
pruning_dataset/modules/dataset_splitter.py: `pair['name'].split('-')[1]`,
with the IndexError caught and the pair routed to the `'unknown'` bucket. -/
def samplerPillCode (name : Str) : Str :=
  let parts := splitOnChar '-' name
  if 2 ≤ parts.length then parts.getD 1 [] else "unknown".data

/-- Claim C9 counterexample: on the identifier "foo_bar" (which contains no
'-') the Splitter's extractor returns "foo" while the Sampler's grouping key
is "unknown": the two class-key functions disagree there, and the Splitter
does not map unmatched identifiers to the sentinel. -/
theorem pill_code_extractors_disagree :
    _extract_pill_code ("foo_bar".data) = ("foo".data) ∧
    samplerPillCode ("foo_bar".data) = ("unknown".data) ∧
    _extract_pill_code ("foo_bar".data) ≠ samplerPillCode ("foo_bar".data) := by
  refine ⟨?_, ?_, ?_⟩ <;> decide

/-- Claim C9 amended: the two class-key extractors agree exactly on
identifiers whose '-'-split has at least two parts (both return the second
part); on every other identifier the Sampler yields the sentinel "unknown"
while the Splitter instead falls back to the segment before the first '_'. -/
theorem pill_code_extractors_agreement (s : Str) :
    (2 ≤ (splitOnChar '-' s).length →
      _extract_pill_code s = samplerPillCode s ∧
      _extract_pill_code s = (splitOnChar '-' s).getD 1 []) ∧
    ((splitOnChar '-' s).length < 2 →
      samplerPillCode s = ("unknown".data) ∧
      _extract_pill_code s = (splitOnChar '_' s).getD 0 []) := by
  constructor
  · intro h2
    simp [_extract_pill_code, samplerPillCode, h2]
  · intro h2
    have h2' : ¬ 2 ≤ (splitOnChar '-' s).length := not_le.mpr h2
    simp [_extract_pill_code, samplerPillCode, h2']

/-- Witness for C9-amended at "K-003544-010221" (the agreeing case). -/
theorem pill_code_extractors_agreement_witness :
    2 ≤ (splitOnChar '-' ("K-003544-010221".data)).length ∧
    _extract_pill_code ("K-003544-010221".data) = samplerPillCode ("K-003544-010221".data) :=
  ⟨by decide, ((pill_code_extractors_agreement ("K-003544-010221".data)).1 (by decide)).1⟩

/- ===================================================================
   Splitter
   (src/data_pipeline/data_preprocess/modules/dataset_split.py)
   =================================================================== -/

/-- One (image, label) pair as assembled by `_get_image_label_pairs`. -/
structure SplitPair where
  image : Str
  label : Str
  name : Str
  pill_code : Str
deriving DecidableEq, Repr

/-- The per-group slicing of `_stratified_split`: `g[:train_end]`,
`g[train_end:val_end]`, `g[val_end:]` with `train_end = int(n * train_ratio)`
and `val_end = train_end + int(n * val_ratio)`. Python's negative-index slice
semantics is not modelled; every theorem below uses ratios ≥ 0, where
`Int.toNat` agrees with Python slicing. -/
def sliceThree (train_r val_r : ℚ) (g : List SplitPair) :
    List SplitPair × List SplitPair × List SplitPair :=
  let n := g.length
  let train_end := (pyInt ((n : ℚ) * train_r)).toNat
  let val_end := train_end + (pyInt ((n : ℚ) * val_r)).toNat
  (g.take train_end, (g.drop train_end).take (val_end - train_end), g.drop val_end)

/-- The grouping-and-shuffling loop of `_stratified_split`: pairs are grouped
by pill code into a defaultdict, which iterates keys in first-insertion order
(the `dedup` order of the mapped pill codes); each group is shuffled. The
PRNG is made explicit as the stream `sh` of permutations indexed by call
order. -/
def shuffledGroups (sh : ℕ → List SplitPair → List SplitPair)
    (pairs : List SplitPair) : ℕ → List Str → List (List SplitPair)
  | _, [] => []
  | i, k :: ks =>
      sh i (pairs.filter (fun p => decide (p.pill_code = k))) :: shuffledGroups sh pairs (i + 1) ks

/-- `_stratified_split(pairs, train_ratio, val_ratio, test_ratio)` from
dataset_split.py. `test_r` is accepted but unused exactly as in the source
(test receives the remainder of every group); the three aggregated lists are
shuffled once more at the end. -/
def _stratified_split (sh : ℕ → List SplitPair → List SplitPair)
    (pairs : List SplitPair) (train_r val_r test_r : ℚ) :
    List SplitPair × List SplitPair × List SplitPair :=
  let keys := (pairs.map SplitPair.pill_code).dedup
  let parts := (shuffledGroups sh pairs 0 keys).map (sliceThree train_r val_r)
  let train_pairs := (parts.map (fun s => s.1)).flatten
  let val_pairs := (parts.map (fun s => s.2.1)).flatten
  let test_pairs := (parts.map (fun s => s.2.2)).flatten
  (sh keys.length train_pairs, sh (keys.length + 1) val_pairs, sh (keys.length + 2) test_pairs)

lemma sliceThree_rejoin (train_r val_r : ℚ) (g : List SplitPair) :
    (sliceThree train_r val_r g).1 ++
      ((sliceThree train_r val_r g).2.1 ++ (sliceThree train_r val_r g).2.2) = g := by
  simp only [sliceThree]
  set a := (pyInt ((g.length : ℚ) * train_r)).toNat with ha
  set b := (pyInt ((g.length : ℚ) * val_r)).toNat with hb
  have h1 : a + b - a = b := by omega
  have h2 : g.drop (a + b) = (g.drop a).drop b := (List.drop_drop b a g).symm
  rw [h1, h2, List.take_append_drop, List.take_append_drop]

lemma count_filter_eq {α : Type} [DecidableEq α] (p : α → Bool) (a : α) (l : List α) :
    (l.filter p).count a = if p a then l.count a else 0 := by
  by_cases h : p a
  · rw [if_pos h, List.count_filter h]
  · rw [if_neg h, List.count_eq_zero]
    intro hmem
    exact h (List.of_mem_filter hmem)

lemma sum_ite_count {β : Type} [DecidableEq β] (b : β) (c : ℕ) (ks : List β) (hks : ks.Nodup) :
    (ks.map (fun k => if b = k then c else 0)).sum = if b ∈ ks then c else 0 := by
  induction ks with
  | nil => simp
  | cons k ks ih =>
    rcases List.nodup_cons.mp hks with ⟨hk, hks'⟩
    simp only [List.map_cons, List.sum_cons, List.mem_cons]
    by_cases hbk : b = k
    · subst hbk
      rw [if_pos rfl, if_pos (Or.inl rfl), ih hks', if_neg hk]
      omega
    · rw [if_neg hbk, ih hks']
      by_cases hbks : b ∈ ks
      · rw [if_pos hbks, if_pos (Or.inr hbks)]
        omega
      · rw [if_neg hbks, if_neg (by tauto)]

lemma count_flatten_filter {α β : Type} [DecidableEq α] [DecidableEq β]
    (key : α → β) (l : List α) (ks : List β) (hks : ks.Nodup) (a : α) :
    ((ks.map (fun k => l.filter (fun x => decide (key x = k)))).flatten).count a
      = if key a ∈ ks then l.count a else 0 := by
  rw [List.count_flatten, List.map_map]
  have hpt : ∀ k ∈ ks, (List.count a ∘ fun k => l.filter (fun x => decide (key x = k))) k
      = (fun k => if key a = k then l.count a else 0) k := by
    intro k _
    simp only [Function.comp_apply]
    rw [count_filter_eq]
    by_cases h : key a = k
    · simp [h]
    · simp [h]
  rw [List.map_congr_left hpt]
  exact sum_ite_count _ _ ks hks

lemma flatten_filter_dedup_perm {α β : Type} [DecidableEq α] [DecidableEq β]
    (key : α → β) (l : List α) :
    (((l.map key).dedup).map (fun k => l.filter (fun x => decide (key x = k)))).flatten.Perm l := by
  rw [List.perm_iff_count]
  intro a
  rw [count_flatten_filter key l _ (List.nodup_dedup _) a]
  by_cases h : key a ∈ (l.map key).dedup
  · rw [if_pos h]
  · rw [if_neg h]
    have ha : a ∉ l := fun hmem => h (List.mem_dedup.mpr (List.mem_map_of_mem key hmem))
    rw [List.count_eq_zero.mpr ha]

lemma flatten_perm_of_forall₂ {α : Type} {L₁ L₂ : List (List α)}
    (h : List.Forall₂ List.Perm L₁ L₂) : L₁.flatten.Perm L₂.flatten := by
  induction h with
  | nil => exact List.Perm.refl _
  | cons h₁ _ ih => simpa using h₁.append ih

lemma shuffledGroups_forall₂ (sh : ℕ → List SplitPair → List SplitPair)
    (hsh : ∀ i l, (sh i l).Perm l) (pairs : List SplitPair) :
    ∀ (i : ℕ) (ks : List Str),
      List.Forall₂ List.Perm (shuffledGroups sh pairs i ks)
        (ks.map (fun k => pairs.filter (fun p => decide (p.pill_code = k))))
  | _, [] => List.Forall₂.nil
  | i, _ :: ks => List.Forall₂.cons (hsh i _) (shuffledGroups_forall₂ sh hsh pairs (i + 1) ks)

lemma sum_map_add3 {α : Type} (f g h : α → ℕ) (l : List α) :
    (l.map (fun x => f x + (g x + h x))).sum = (l.map f).sum + ((l.map g).sum + (l.map h).sum) := by
  induction l with
  | nil => simp
  | cons hd tl ih =>
    simp only [List.map_cons, List.sum_cons, ih]
    omega

lemma flatten_three_perm {α : Type} [DecidableEq α]
    (parts : List (List α × List α × List α)) :
    ((parts.map (fun s => s.1)).flatten ++
      ((parts.map (fun s => s.2.1)).flatten ++ (parts.map (fun s => s.2.2)).flatten)).Perm
      ((parts.map (fun s => s.1 ++ (s.2.1 ++ s.2.2))).flatten) := by
  rw [List.perm_iff_count]
  intro a
  simp only [List.count_append, List.count_flatten, List.map_map, Function.comp_def,
    List.count_append]
  exact (sum_map_add3 (fun s => (s.1).count a) (fun s => (s.2.1).count a)
    (fun s => (s.2.2).count a) parts).symm

lemma stratified_concat_perm
    (sh : ℕ → List SplitPair → List SplitPair) (hsh : ∀ i l, (sh i l).Perm l)
    (pairs : List SplitPair) (train_r val_r test_r : ℚ) :
    ((_stratified_split sh pairs train_r val_r test_r).1 ++
     ((_stratified_split sh pairs train_r val_r test_r).2.1 ++
      (_stratified_split sh pairs train_r val_r test_r).2.2)).Perm pairs := by
  simp only [_stratified_split]
  refine ((hsh _ _).append ((hsh _ _).append (hsh _ _))).trans ?_
  refine (flatten_three_perm _).trans ?_
  rw [List.map_map]
  have hrj : ∀ g ∈ shuffledGroups sh pairs 0 ((pairs.map SplitPair.pill_code).dedup),
      ((fun s => s.1 ++ (s.2.1 ++ s.2.2)) ∘ sliceThree train_r val_r) g = (fun g => g) g :=
    fun g _ => sliceThree_rejoin _ _ g
  rw [List.map_congr_left hrj, List.map_id']
  refine (flatten_perm_of_forall₂ (shuffledGroups_forall₂ sh hsh pairs 0 _)).trans ?_
  exact flatten_filter_dedup_perm SplitPair.pill_code pairs

/-- Claim C2 amended: for every shuffle stream that permutes its input, every
duplicate-free pool and nonnegative train/val ratios, `_stratified_split`
partitions the pool: the concatenation of train/val/test is a permutation of
the pool, the lengths add up, the three lists are pairwise disjoint and their
union is the pool. (For pools containing duplicate pairs the permutation
still holds but disjointness can fail, see the counterexample.) -/
theorem stratified_split_partition
    (sh : ℕ → List SplitPair → List SplitPair) (hsh : ∀ i l, (sh i l).Perm l)
    (pairs : List SplitPair) (hnd : pairs.Nodup)
    (train_r val_r test_r : ℚ) (htr : 0 ≤ train_r) (hvr : 0 ≤ val_r) :
    ((_stratified_split sh pairs train_r val_r test_r).1 ++
     ((_stratified_split sh pairs train_r val_r test_r).2.1 ++
      (_stratified_split sh pairs train_r val_r test_r).2.2)).Perm pairs ∧
    (_stratified_split sh pairs train_r val_r test_r).1.length +
      (_stratified_split sh pairs train_r val_r test_r).2.1.length +
      (_stratified_split sh pairs train_r val_r test_r).2.2.length = pairs.length ∧
    (_stratified_split sh pairs train_r val_r test_r).1.Disjoint
      (_stratified_split sh pairs train_r val_r test_r).2.1 ∧
    (_stratified_split sh pairs train_r val_r test_r).1.Disjoint
      (_stratified_split sh pairs train_r val_r test_r).2.2 ∧
    (_stratified_split sh pairs train_r val_r test_r).2.1.Disjoint
      (_stratified_split sh pairs train_r val_r test_r).2.2 ∧
    (∀ x, x ∈ pairs ↔ (x ∈ (_stratified_split sh pairs train_r val_r test_r).1 ∨
      x ∈ (_stratified_split sh pairs train_r val_r test_r).2.1 ∨
      x ∈ (_stratified_split sh pairs train_r val_r test_r).2.2)) := by
  have hperm := stratified_concat_perm sh hsh pairs train_r val_r test_r
  have hnod := hnd.perm hperm.symm
  rcases List.nodup_append.mp hnod with ⟨h1, h23, hd1⟩
  rcases List.nodup_append.mp h23 with ⟨h2, h3, hd23⟩
  rcases List.disjoint_append_right.mp hd1 with ⟨hd12, hd13⟩
  refine ⟨hperm, ?_, hd12, hd13, hd23, ?_⟩
  · have hlen := hperm.length_eq
    simp only [List.length_append] at hlen
    omega
  · intro x
    rw [← hperm.mem_iff]
    simp [List.mem_append]

/-- A duplicated (image, label) pair, used in the C2 counterexample. -/
def dupPair : SplitPair := ⟨"a.png".data, "a.txt".data, "a".data, "a".data⟩

/-- Claim C2 counterexample: on the pool [dupPair, dupPair] (which contains
the same pair twice) with ratios (1/2, 1/2, 0) and the identity shuffle (a
legal outcome of random.shuffle), `_stratified_split` emits
train = [dupPair] and val = [dupPair]: the two output lists share an element,
so they are not pairwise disjoint and the claim fails for arbitrary pools. -/
theorem stratified_split_not_disjoint_on_duplicates :
    (_stratified_split (fun _ l => l) [dupPair, dupPair] (1/2) (1/2) 0).1 = [dupPair] ∧
    (_stratified_split (fun _ l => l) [dupPair, dupPair] (1/2) (1/2) 0).2.1 = [dupPair] ∧
    ¬ ((_stratified_split (fun _ l => l) [dupPair, dupPair] (1/2) (1/2) 0).1.Disjoint
        (_stratified_split (fun _ l => l) [dupPair, dupPair] (1/2) (1/2) 0).2.1) := by
  have e1 : pyInt (((2 : ℕ) : ℚ) * (1/2)) = 1 := by
    rw [pyInt, if_neg (by norm_num)]
    norm_num
  have h1 : (_stratified_split (fun _ l => l) [dupPair, dupPair] (1/2) (1/2) 0).1 = [dupPair] := by
    simp +decide [_stratified_split, shuffledGroups, sliceThree, e1]
  have h2 : (_stratified_split (fun _ l => l) [dupPair, dupPair] (1/2) (1/2) 0).2.1 = [dupPair] := by
    simp +decide [_stratified_split, shuffledGroups, sliceThree, e1]
  refine ⟨h1, h2, fun hd => ?_⟩
  rw [h1, h2] at hd
  exact hd (List.mem_singleton_self _) (List.mem_singleton_self _)

/-- Two distinct pairs for the C2-amended witness. -/
def wPair1 : SplitPair := ⟨"p1.png".data, "p1.txt".data, "K-A-1".data, "A".data⟩

/-- Second distinct pair for the C2-amended witness. -/
def wPair2 : SplitPair := ⟨"p2.png".data, "p2.txt".data, "K-B-1".data, "B".data⟩

/-- Witness for C2-amended with the identity shuffle stream on a two-element
duplicate-free pool and ratios (1/2, 1/4, 1/4). -/
theorem stratified_split_partition_witness :
    ((∀ (i : ℕ) (l : List SplitPair), ((fun _ l => l) i l).Perm l) ∧
      ([wPair1, wPair2].Nodup) ∧ (0 ≤ (1/2 : ℚ)) ∧ (0 ≤ (1/4 : ℚ))) ∧
    ((_stratified_split (fun _ l => l) [wPair1, wPair2] (1/2) (1/4) (1/4)).1 ++
     ((_stratified_split (fun _ l => l) [wPair1, wPair2] (1/2) (1/4) (1/4)).2.1 ++
      (_stratified_split (fun _ l => l) [wPair1, wPair2] (1/2) (1/4) (1/4)).2.2)).Perm
      [wPair1, wPair2] :=
  ⟨⟨fun _ _ => List.Perm.refl _, by decide, by norm_num, by norm_num⟩,
   (stratified_split_partition (fun _ l => l) (fun _ _ => List.Perm.refl _)
     [wPair1, wPair2] (by decide) (1/2) (1/4) (1/4) (by norm_num) (by norm_num)).1⟩

/- ===================================================================
   Sampler
   (src/data_pipeline/pruning_dataset/modules/dataset_splitter.py;
    the identical algorithm also appears in
    src/data_preprocess/dataset_prunig.py as balanced_sampling /
    quality_sampling)
   =================================================================== -/

/-- One matched (image, annotation-path, name) pair as assembled by
`_extract_train_pairs` (the annotation-path field is named `annot` here). -/
structure PrunePair where
  image : Str
  annot : Str
  name : Str
deriving DecidableEq, Repr

/-- Keys of the `groups` defaultdict of `_balanced_sample`, in first-insertion
order: the distinct sampler pill codes of the pool. -/
def balancedKeys (pairs : List PrunePair) : List Str :=
  (pairs.map (fun p => samplerPillCode p.name)).dedup

/-- `samples_per_group = max(1, target_size // len(groups))`; evaluating this
with an empty group dict raises ZeroDivisionError in Python, which
`_balanced_sample` below models with `none`. -/
def samplesPerGroup (pairs : List PrunePair) (target_size : ℕ) : ℕ :=
  max 1 (target_size / (balancedKeys pairs).length)

/-- The per-group sampling loop of `_balanced_sample`: each group contributes
`random.sample(group, min(samples_per_group, len(group)))`. The PRNG is the
explicit stream `sample` indexed by call order. -/
def sampledGroups (sample : ℕ → List PrunePair → ℕ → List PrunePair)
    (pairs : List PrunePair) (spg : ℕ) : ℕ → List Str → List (List PrunePair)
  | _, [] => []
  | i, k :: ks =>
      let group := pairs.filter (fun p => decide (samplerPillCode p.name = k))
      sample i group (min spg group.length) :: sampledGroups sample pairs spg (i + 1) ks

/-- The `selected` list after the per-group sampling loop of
`_balanced_sample`. -/
def balancedSelected (sample : ℕ → List PrunePair → ℕ → List PrunePair)
    (pairs : List PrunePair) (target_size : ℕ) : List PrunePair :=
  (sampledGroups sample pairs (samplesPerGroup pairs target_size) 0 (balancedKeys pairs)).flatten

/-- `_balanced_sample(pairs, target_size)` from dataset_splitter.py:
group by pill code, draw `min(samples_per_group, len(group))` per group,
top up from the not-yet-selected remainder if short, down-sample to
`target_size` if over. `none` models the ZeroDivisionError raised by
`target_size // len(groups)` on an empty pool. -/
def _balanced_sample (sample : ℕ → List PrunePair → ℕ → List PrunePair)
    (pairs : List PrunePair) (target_size : ℕ) : Option (List PrunePair) :=
  if (balancedKeys pairs).length = 0 then none
  else
    let selected := balancedSelected sample pairs target_size
    if selected.length < target_size then
      let remaining := pairs.filter (fun p => decide (p ∉ selected))
      some (selected ++ sample (balancedKeys pairs).length remaining
        (min (target_size - selected.length) remaining.length))
    else if target_size < selected.length then
      some (sample ((balancedKeys pairs).length + 1) selected target_size)
    else
      some selected

/-- `_quality_sample(pairs, target_size)`: stable-sort by image file size
descending and take the top `target_size`; the `os.path.getsize` lookup is
the explicit parameter `fsize`. -/
def _quality_sample (fsize : PrunePair → ℕ) (pairs : List PrunePair)
    (target_size : ℕ) : List PrunePair :=
  (((pairs.map (fun p => (p, fsize p))).mergeSort
      (fun a b => decide (b.2 ≤ a.2))).map Prod.fst).take target_size

/-- The strategy dispatch of `_extract_train_pairs`, with the filesystem
discovery of `valid_pairs` modelled as the input list: `"balanced"` and
`"quality"` select their samplers, anything else is the random strategy
`random.sample(valid_pairs, min(train_size, len(valid_pairs)))`. -/
def selectSample (sample : ℕ → List PrunePair → ℕ → List PrunePair)
    (fsize : PrunePair → ℕ) (valid_pairs : List PrunePair)
    (train_size : ℕ) (strategy : Str) : Option (List PrunePair) :=
  if strategy = ("balanced".data) then _balanced_sample sample valid_pairs train_size
  else if strategy = ("quality".data) then
    some (_quality_sample fsize valid_pairs train_size)
  else
    some (sample 0 valid_pairs (min train_size valid_pairs.length))

lemma sampledGroups_count_le (sample : ℕ → List PrunePair → ℕ → List PrunePair)
    (hsub : ∀ i l k, (sample i l k).Subperm l) (pairs : List PrunePair) (spg : ℕ) :
    ∀ (i : ℕ) (ks : List Str) (a : PrunePair),
      ((sampledGroups sample pairs spg i ks).flatten).count a
        ≤ ((ks.map (fun k =>
            pairs.filter (fun p => decide (samplerPillCode p.name = k)))).flatten).count a
  | _, [], _ => le_refl _
  | i, k :: ks, a => by
    simp only [sampledGroups, List.map_cons, List.flatten_cons, List.count_append]
    exact Nat.add_le_add ((hsub i _ _).count_le a)
      (sampledGroups_count_le sample hsub pairs spg (i + 1) ks a)

lemma balancedSelected_subperm (sample : ℕ → List PrunePair → ℕ → List PrunePair)
    (hsub : ∀ i l k, (sample i l k).Subperm l) (pairs : List PrunePair) (t : ℕ) :
    (balancedSelected sample pairs t).Subperm pairs := by
  rw [List.subperm_ext_iff]
  intro x hx
  have h1 := sampledGroups_count_le sample hsub pairs (samplesPerGroup pairs t) 0
    (balancedKeys pairs) x
  have h2 := count_flatten_filter (fun p : PrunePair => samplerPillCode p.name) pairs
    (balancedKeys pairs) (List.nodup_dedup _) x
  rw [h2] at h1
  refine le_trans h1 ?_
  split
  · exact le_refl _
  · exact Nat.zero_le _

lemma topup_subperm {selected additional : List PrunePair} {pairs : List PrunePair}
    (hsel : selected.Subperm pairs)
    (hadd : additional.Subperm (pairs.filter (fun p => decide (p ∉ selected)))) :
    (selected ++ additional).Subperm pairs := by
  rw [List.subperm_ext_iff]
  intro x _
  rw [List.count_append]
  by_cases hmem : x ∈ selected
  · have h0 : (pairs.filter (fun p => decide (p ∉ selected))).count x = 0 := by
      rw [List.count_eq_zero]
      intro hmem2
      have := List.of_mem_filter hmem2
      simp only [decide_eq_true_eq] at this
      exact this hmem
    have hz : additional.count x = 0 := Nat.le_zero.mp (h0 ▸ hadd.count_le x)
    rw [hz]
    have := hsel.count_le x
    omega
  · rw [List.count_eq_zero.mpr hmem]
    have h1 : additional.count x ≤ (pairs.filter (fun p => decide (p ∉ selected))).count x :=
      hadd.count_le x
    have h2 : (pairs.filter (fun p => decide (p ∉ selected))).count x ≤ pairs.count x :=
      (List.filter_sublist pairs).subperm.count_le x
    omega

lemma length_filter_decide_compl {α : Type} (P : α → Prop) [DecidablePred P] (l : List α) :
    (l.filter (fun a => decide (¬ P a))).length + (l.filter (fun a => decide (P a))).length
      = l.length := by
  induction l with
  | nil => rfl
  | cons h t ih =>
    simp only [decide_not] at ih ⊢
    by_cases hp : P h <;> simp [List.filter_cons, hp] <;> omega

lemma nodup_subset_length_le {α : Type} [DecidableEq α] {m s : List α}
    (hm : m.Nodup) (hsub : m ⊆ s) : m.length ≤ s.length := by
  calc m.length = m.toFinset.card := (List.toFinset_card_of_nodup hm).symm
    _ ≤ s.toFinset.card := Finset.card_le_card (by
        intro x hx
        simp only [List.mem_toFinset] at hx ⊢
        exact hsub hx)
    _ ≤ s.length := List.toFinset_card_le s

lemma remaining_length_ge (pairs selected : List PrunePair) (hnd : pairs.Nodup) :
    pairs.length ≤ (pairs.filter (fun p => decide (p ∉ selected))).length + selected.length := by
  have hcompl := length_filter_decide_compl (fun p => p ∈ selected) pairs
  have hmemlen : (pairs.filter (fun p => decide (p ∈ selected))).length ≤ selected.length := by
    refine nodup_subset_length_le (hnd.filter _) ?_
    intro x hx
    have := List.of_mem_filter hx
    simpa using this
  omega

lemma balancedKeys_length_ne_zero {pairs : List PrunePair} (hne : pairs ≠ []) :
    (balancedKeys pairs).length ≠ 0 := by
  simp [balancedKeys, List.length_eq_zero, List.dedup_eq_nil, hne]

lemma _balanced_sample_lt (sample : ℕ → List PrunePair → ℕ → List PrunePair)
    (pairs : List PrunePair) (t : ℕ)
    (hk : (balancedKeys pairs).length ≠ 0)
    (hlt : (balancedSelected sample pairs t).length < t) :
    _balanced_sample sample pairs t =
      some ((balancedSelected sample pairs t) ++
        sample (balancedKeys pairs).length
          (pairs.filter (fun p => decide (p ∉ balancedSelected sample pairs t)))
          (min (t - (balancedSelected sample pairs t).length)
            (pairs.filter (fun p => decide (p ∉ balancedSelected sample pairs t))).length)) := by
  simp only [_balanced_sample]
  rw [if_neg hk, if_pos hlt]

lemma _balanced_sample_gt (sample : ℕ → List PrunePair → ℕ → List PrunePair)
    (pairs : List PrunePair) (t : ℕ)
    (hk : (balancedKeys pairs).length ≠ 0)
    (hgt : t < (balancedSelected sample pairs t).length) :
    _balanced_sample sample pairs t =
      some (sample ((balancedKeys pairs).length + 1) (balancedSelected sample pairs t) t) := by
  simp only [_balanced_sample]
  rw [if_neg hk, if_neg (by omega), if_pos hgt]

lemma _balanced_sample_exact (sample : ℕ → List PrunePair → ℕ → List PrunePair)
    (pairs : List PrunePair) (t : ℕ)
    (hk : (balancedKeys pairs).length ≠ 0)
    (heq : (balancedSelected sample pairs t).length = t) :
    _balanced_sample sample pairs t = some (balancedSelected sample pairs t) := by
  simp only [_balanced_sample]
  rw [if_neg hk, if_neg (by omega), if_neg (by omega)]

/-- A concrete deterministic sampler (prefix-taking) satisfying the
`random.sample` contracts; used in the witnesses below. -/
def takeSampler : ℕ → List PrunePair → ℕ → List PrunePair := fun _ l k => l.take k

/-- Claim C4 amended: on a nonempty under-supplied pool each of the three
strategies returns, without error, the pairs it can — fewer than requested
(quality and random return exactly the whole pool). On the empty pool,
however, the balanced strategy errors out (see the counterexample), so the
claim's "in particular this holds for the empty pool" fails. -/
theorem sampling_under_supply_graceful
    (sample : ℕ → List PrunePair → ℕ → List PrunePair)
    (hlen : ∀ i l k, (sample i l k).length = min k l.length)
    (hsub : ∀ i l k, (sample i l k).Subperm l)
    (fsize : PrunePair → ℕ) (pairs : List PrunePair) (t : ℕ)
    (hne : pairs ≠ []) (hlt : pairs.length < t) :
    (∃ res, selectSample sample fsize pairs t ("balanced".data) = some res ∧
      res.length ≤ pairs.length ∧ res.length < t) ∧
    (∃ res, selectSample sample fsize pairs t ("quality".data) = some res ∧
      res.length = pairs.length) ∧
    (∃ res, selectSample sample fsize pairs t ("random".data) = some res ∧
      res.length = pairs.length) := by
  have hk := balancedKeys_length_ne_zero hne
  have hselsub := balancedSelected_subperm sample hsub pairs t
  have hslen : (balancedSelected sample pairs t).length ≤ pairs.length := hselsub.length_le
  have hslt : (balancedSelected sample pairs t).length < t := lt_of_le_of_lt hslen hlt
  refine ⟨?_, ?_, ?_⟩
  · have hdisp : selectSample sample fsize pairs t ("balanced".data)
        = _balanced_sample sample pairs t := by
      simp +decide [selectSample]
    rw [hdisp, _balanced_sample_lt sample pairs t hk hslt]
    refine ⟨_, rfl, ?_, ?_⟩
    · exact (topup_subperm hselsub (hsub _ _ _)).length_le
    · exact lt_of_le_of_lt (topup_subperm hselsub (hsub _ _ _)).length_le hlt
  · have hdisp : selectSample sample fsize pairs t ("quality".data)
        = some (_quality_sample fsize pairs t) := by
      simp +decide [selectSample]
    rw [hdisp]
    refine ⟨_, rfl, ?_⟩
    simp only [_quality_sample]
    rw [List.length_take, List.length_map, List.length_mergeSort, List.length_map]
    omega
  · have hdisp : selectSample sample fsize pairs t ("random".data)
        = some (sample 0 pairs (min t pairs.length)) := by
      simp +decide [selectSample]
    rw [hdisp]
    refine ⟨_, rfl, ?_⟩
    rw [hlen]
    omega

/-- Claim C4 counterexample: on the empty pool the balanced strategy does not
gracefully return an empty selection — `samples_per_group =
max(1, target_size // len(groups))` divides by zero (modelled by `none`),
even with a perfectly well-behaved sampler. -/
theorem balanced_sampling_empty_pool_errors :
    selectSample takeSampler (fun _ => 0) [] 5 ("balanced".data) = none := by
  rfl

/-- Two-element pool for the C4-amended witness. -/
def c4pool : List PrunePair :=
  [⟨"i1.png".data, "a1.json".data, "K-A-1".data⟩,
   ⟨"i2.png".data, "a2.json".data, "K-B-1".data⟩]

/-- Witness for C4-amended: a pool of 2 pairs with target 5 returns 2 pairs
under the balanced strategy, with no error. -/
theorem sampling_under_supply_graceful_witness :
    ((∀ (i : ℕ) (l : List PrunePair) (k : ℕ), (takeSampler i l k).length = min k l.length) ∧
     (∀ (i : ℕ) (l : List PrunePair) (k : ℕ), (takeSampler i l k).Subperm l) ∧
     c4pool ≠ [] ∧ c4pool.length < 5) ∧
    (∃ res, selectSample takeSampler (fun _ => 0) c4pool 5 ("balanced".data) = some res ∧
      res.length ≤ c4pool.length ∧ res.length < 5) :=
  ⟨⟨fun _ l k => by simp [takeSampler],
    fun _ l k => (List.take_sublist k l).subperm,
    by decide, by decide⟩,
   (sampling_under_supply_graceful takeSampler
     (fun _ l k => by simp [takeSampler])
     (fun _ l k => (List.take_sublist k l).subperm)
     (fun _ => 0) c4pool 5 (by decide) (by decide)).1⟩

/-- Claim C6: for every sampler stream satisfying the `random.sample` length
contract, `selectSample` returns at most `target_size` items under each of
the three strategies (for balanced: after its top-up and down-sample
adjustment steps); and for the balanced strategy on a duplicate-free pool
with at least `target_size` items the result has exactly `target_size`
items. -/
theorem select_sample_upper_bound
    (sample : ℕ → List PrunePair → ℕ → List PrunePair)
    (hlen : ∀ i l k, (sample i l k).length = min k l.length)
    (fsize : PrunePair → ℕ) (pairs : List PrunePair) (t : ℕ) (ht : 1 ≤ t) :
    (∀ res, selectSample sample fsize pairs t ("balanced".data) = some res →
      res.length ≤ t) ∧
    (∀ res, selectSample sample fsize pairs t ("quality".data) = some res →
      res.length ≤ t) ∧
    (∀ res, selectSample sample fsize pairs t ("random".data) = some res →
      res.length ≤ t) ∧
    (pairs.Nodup → t ≤ pairs.length →
      ∃ res, selectSample sample fsize pairs t ("balanced".data) = some res ∧
        res.length = t) := by
  refine ⟨?_, ?_, ?_, ?_⟩
  · intro res h
    have hdisp : selectSample sample fsize pairs t ("balanced".data)
        = _balanced_sample sample pairs t := by
      simp +decide [selectSample]
    rw [hdisp] at h
    by_cases hk : (balancedKeys pairs).length = 0
    · simp only [_balanced_sample, if_pos hk] at h
      exact Option.noConfusion h
    · rcases lt_trichotomy (balancedSelected sample pairs t).length t with hlt | heq | hgt
      · rw [_balanced_sample_lt sample pairs t hk hlt] at h
        have hres := Option.some_injective _ h.symm
        rw [hres, List.length_append, hlen]
        omega
      · rw [_balanced_sample_exact sample pairs t hk heq] at h
        have hres := Option.some_injective _ h.symm
        rw [hres]
        omega
      · rw [_balanced_sample_gt sample pairs t hk hgt] at h
        have hres := Option.some_injective _ h.symm
        rw [hres, hlen]
        omega
  · intro res h
    have hdisp : selectSample sample fsize pairs t ("quality".data)
        = some (_quality_sample fsize pairs t) := by
      simp +decide [selectSample]
    rw [hdisp] at h
    have hres := Option.some_injective _ h.symm
    rw [hres]
    simp only [_quality_sample]
    rw [List.length_take]
    omega
  · intro res h
    have hdisp : selectSample sample fsize pairs t ("random".data)
        = some (sample 0 pairs (min t pairs.length)) := by
      simp +decide [selectSample]
    rw [hdisp] at h
    have hres := Option.some_injective _ h.symm
    rw [hres, hlen]
    omega
  · intro hnd hge
    have hne : pairs ≠ [] := by
      have : 0 < pairs.length := by omega
      exact List.length_pos.mp this
    have hk := balancedKeys_length_ne_zero hne
    have hdisp : selectSample sample fsize pairs t ("balanced".data)
        = _balanced_sample sample pairs t := by
      simp +decide [selectSample]
    rcases lt_trichotomy (balancedSelected sample pairs t).length t with hlt | heq | hgt
    · have hrem := remaining_length_ge pairs (balancedSelected sample pairs t) hnd
      rw [hdisp, _balanced_sample_lt sample pairs t hk hlt]
      refine ⟨_, rfl, ?_⟩
      rw [List.length_append, hlen]
      omega
    · rw [hdisp, _balanced_sample_exact sample pairs t hk heq]
      exact ⟨_, rfl, heq⟩
    · rw [hdisp, _balanced_sample_gt sample pairs t hk hgt]
      refine ⟨_, rfl, ?_⟩
      rw [hlen]
      omega

/-- Seven-element pool spanning three pill codes (A: 3, B: 2, C: 2), used in
the C6 witness. -/
def c6pool : List PrunePair :=
  [⟨"i1.png".data, "a1.json".data, "K-A-1".data⟩,
   ⟨"i2.png".data, "a2.json".data, "K-A-2".data⟩,
   ⟨"i3.png".data, "a3.json".data, "K-A-3".data⟩,
   ⟨"i4.png".data, "a4.json".data, "K-B-1".data⟩,
   ⟨"i5.png".data, "a5.json".data, "K-B-2".data⟩,
   ⟨"i6.png".data, "a6.json".data, "K-C-1".data⟩,
   ⟨"i7.png".data, "a7.json".data, "K-C-2".data⟩]

/-- Witness for C6: a pool of 7 items grouped into 3 class keys with
target 5 and the balanced strategy yields exactly 5 items. -/
theorem select_sample_upper_bound_witness :
    ((∀ (i : ℕ) (l : List PrunePair) (k : ℕ), (takeSampler i l k).length = min k l.length) ∧
     (1 : ℕ) ≤ 5 ∧ c6pool.Nodup ∧ 5 ≤ c6pool.length) ∧
    (∃ res, selectSample takeSampler (fun _ => 0) c6pool 5 ("balanced".data) = some res ∧
      res.length = 5) :=
  ⟨⟨fun _ l k => by simp [takeSampler], by norm_num, by decide, by decide⟩,
   (select_sample_upper_bound takeSampler (fun _ l k => by simp [takeSampler])
     (fun _ => 0) c6pool 5 (by norm_num)).2.2.2 (by decide) (by decide)⟩

/- ===================================================================
   Format Converter
   (src/data_pipeline/data_preprocess/modules/annotation_converter.py)
   =================================================================== -/

/-- Python `s.replace(pat, repl)` (left-to-right, non-overlapping), with a
fuel counter equal to the string length so the recursion is structural and
kernel-evaluable. Pattern-empty behaviour differs from Python (here: no
change), but the source only ever replaces the non-empty literals ".png",
".jpg" and ".json". -/
def replaceAllFuel (pat repl : Str) : ℕ → Str → Str
  | _, [] => []
  | 0, s => s
  | fuel + 1, x :: xs =>
    if pat ≠ [] ∧ pat.isPrefixOf (x :: xs) then
      repl ++ replaceAllFuel pat repl fuel ((x :: xs).drop pat.length)
    else
      x :: replaceAllFuel pat repl fuel xs

/-- Python `s.replace(pat, repl)`. -/
def replaceAll (pat repl s : Str) : Str := replaceAllFuel pat repl s.length s

/-- `extract_pill_code` from annotation_converter.py:
`name = filename.replace('.png', '').replace('.json', '')`, then
`name.split('_')[0] if '_' in name else name`. -/
def extract_pill_code (filename : Str) : Str :=
  let name := replaceAll (".json".data) [] (replaceAll (".png".data) [] filename)
  if '_' ∈ name then (splitOnChar '_' name).getD 0 [] else name

/-- The `base_name = filename.replace('.png', '').replace('.jpg', '')` step
of `convert_coco_to_yolo`. -/
def base_name (filename : Str) : Str :=
  replaceAll (".jpg".data) [] (replaceAll (".png".data) [] filename)

/-- One entry of the COCO `images` array. -/
structure CocoImage where
  id : ℤ
  file_name : Str
  width : ℚ
  height : ℚ
deriving DecidableEq, Repr

/-- One entry of the COCO `annotations` array. -/
structure CocoAnnotation where
  image_id : ℤ
  bbox : ℚ × ℚ × ℚ × ℚ
deriving DecidableEq, Repr

/-- A parsed COCO annotation file. -/
structure CocoData where
  images : List CocoImage
  annotations : List CocoAnnotation
deriving DecidableEq, Repr

/-- One YOLO label line before rendering. -/
structure YoloLine where
  class_id : ℕ
  center_x : ℚ
  center_y : ℚ
  width_rel : ℚ
  height_rel : ℚ
deriving DecidableEq, Repr

/-- `code_to_id.get(pill_code, 0)`: class-id lookup with default 0. -/
def lookupD (code_to_id : List (Str × ℕ)) (k : Str) : ℕ :=
  match code_to_id.find? (fun e => decide (e.1 = k)) with
  | some e => e.2
  | none => 0

/-- The inner-loop box arithmetic of `convert_coco_to_yolo`:
`center_x = (x + w/2) / img_width`, `center_y = (y + h/2) / img_height`,
`width_rel = w / img_width`, `height_rel = h / img_height`. -/
def mkYoloLine (class_id : ℕ) (img_width img_height : ℚ)
    (bbox : ℚ × ℚ × ℚ × ℚ) : YoloLine :=
  ⟨class_id,
   (bbox.1 + bbox.2.2.1 / 2) / img_width,
   (bbox.2.1 + bbox.2.2.2 / 2) / img_height,
   bbox.2.2.1 / img_width,
   bbox.2.2.2 / img_height⟩

/-- The per-file conversion loop of `convert_coco_to_yolo` (lines 283-316):
for each image collect its matching annotations; only when that list is
nonempty is a label file written, named by the image's base name, with the
class id resolved once per image from the pill code of the image's file
name and one converted line per annotation, in source order. -/
def convert_coco_file (code_to_id : List (Str × ℕ)) (coco : CocoData) :
    List (Str × List YoloLine) :=
  coco.images.filterMap (fun img =>
    let image_annotations := coco.annotations.filter (fun a => decide (a.image_id = img.id))
    if image_annotations.isEmpty then none
    else
      let class_id := lookupD code_to_id (extract_pill_code img.file_name)
      some (base_name img.file_name,
        image_annotations.map (fun ann => mkYoloLine class_id img.width img.height ann.bbox)))

/-- A COCO file whose single image has zero matching annotations. -/
def zeroBoxData : CocoData :=
  ⟨[⟨1, "K-003544_0_2_0_70_000_200.png".data, 1280, 1280⟩], []⟩

/-- Claim C3 counterexample: converting a file whose image has zero matching
annotations produces no label output at all — in particular no entry carrying
an empty line list for that image — contradicting "a valid empty label
output, not an error and not an absent label". (No error occurs: the
conversion returns normally, with an empty result.) -/
theorem conversion_zero_box_label_absent :
    convert_coco_file [] zeroBoxData = [] ∧
    ¬ ∃ e ∈ convert_coco_file [] zeroBoxData,
        e.1 = base_name ("K-003544_0_2_0_70_000_200.png".data) ∧
        e.2 = ([] : List YoloLine) := by
  refine ⟨rfl, ?_⟩
  rintro ⟨e, he, -⟩
  rw [show convert_coco_file [] zeroBoxData = [] from rfl] at he
  exact List.not_mem_nil e he

/-- Claim C3 amended: the conversion is total (never an error) and writes
label files exactly for the images that have at least one matching
annotation: an image with zero matching annotations is skipped, yielding no
label file for it (rather than an empty one). -/
theorem convert_labels_iff_boxes (code_to_id : List (Str × ℕ)) (coco : CocoData) :
    (convert_coco_file code_to_id coco).map Prod.fst =
      (coco.images.filter (fun img =>
        !(coco.annotations.filter (fun a => decide (a.image_id = img.id))).isEmpty)).map
        (fun img => base_name img.file_name) := by
  rcases coco with ⟨imgs, anns⟩
  simp only [convert_coco_file]
  induction imgs with
  | nil => rfl
  | cons hd tl ih =>
    rw [List.filterMap_cons, List.filter_cons]
    by_cases hp : (anns.filter (fun a => decide (a.image_id = hd.id))).isEmpty
    · rw [if_pos hp, hp]
      simpa using ih
    · have hp' : (anns.filter (fun a => decide (a.image_id = hd.id))).isEmpty = false := by
        simpa using hp
      rw [if_neg hp, hp']
      simpa using ih

/-- Claim C10: every label entry the conversion writes originates from one
image of the file, and every line of that entry carries one and the same
class id — the id resolved once from the pill code extracted from the
image's file name — however many boxes the image has. -/
theorem yolo_label_uniform_class_id (code_to_id : List (Str × ℕ)) (coco : CocoData)
    (e : Str × List YoloLine) (he : e ∈ convert_coco_file code_to_id coco) :
    ∃ img ∈ coco.images,
      e.1 = base_name img.file_name ∧
      ∀ line ∈ e.2,
        line.class_id = lookupD code_to_id (extract_pill_code img.file_name) := by
  rcases List.mem_filterMap.mp he with ⟨img, himg, heq⟩
  by_cases hemp : (coco.annotations.filter (fun a => decide (a.image_id = img.id))).isEmpty
  · rw [if_pos hemp] at heq
    exact Option.noConfusion heq
  · rw [if_neg hemp] at heq
    have he2 := Option.some_injective _ heq
    refine ⟨img, himg, ?_, ?_⟩
    · rw [← he2]
    · intro line hline
      rw [← he2] at hline
      rcases List.mem_map.mp hline with ⟨ann, _, hl⟩
      rw [← hl]
      rfl

/-- The COCO file used by the C10 witness: one image, two boxes. -/
def c10coco : CocoData :=
  ⟨[⟨1, "K-003544_0.png".data, 100, 100⟩],
   [⟨1, (10, 10, 20, 20)⟩, ⟨1, (30, 30, 40, 40)⟩]⟩

/-- The label entry `convert_coco_file` produces for `c10coco`. -/
def c10entry : Str × List YoloLine :=
  (base_name ("K-003544_0.png".data),
   [mkYoloLine (lookupD [("K-003544".data, 7)] (extract_pill_code ("K-003544_0.png".data)))
      100 100 (10, 10, 20, 20),
    mkYoloLine (lookupD [("K-003544".data, 7)] (extract_pill_code ("K-003544_0.png".data)))
      100 100 (30, 30, 40, 40)])

/-- Witness for C10 on a two-box image. -/
theorem yolo_label_uniform_class_id_witness :
    (c10entry ∈ convert_coco_file [("K-003544".data, 7)] c10coco) ∧
    ∃ img ∈ c10coco.images,
      c10entry.1 = base_name img.file_name ∧
      ∀ line ∈ c10entry.2,
        line.class_id = lookupD [("K-003544".data, 7)] (extract_pill_code img.file_name) :=
  have he : c10entry ∈ convert_coco_file [("K-003544".data, 7)] c10coco := by
    rw [show convert_coco_file [("K-003544".data, 7)] c10coco = [c10entry] from rfl]
    exact List.mem_singleton_self _
  ⟨he, yolo_label_uniform_class_id [("K-003544".data, 7)] c10coco c10entry he⟩

/-- Zero-pad a digit string on the left to length `k`. -/
def padZeros (k : ℕ) (s : Str) : Str := List.replicate (k - s.length) '0' ++ s

/-- Python `f"{q:.6f}"` for nonnegative `q`: the value rounded to 6 decimal
places and printed with exactly 6 fractional digits. (Rounding of exact
decimal midpoints differs between this model, half-up, and Python's binary
floats; every value the theorems below touch is exactly representable, where
no rounding happens at all.) -/
def format6 (q : ℚ) : Str :=
  let n := (⌊q * 1000000 + 1/2⌋).toNat
  Nat.toDigits 10 (n / 1000000) ++ ('.' :: padZeros 6 (Nat.toDigits 10 (n % 1000000)))

/-- The `f.write(f"{class_id} {cx:.6f} {cy:.6f} {w:.6f} {h:.6f}\n")`
rendering of one label line, without the trailing newline. -/
def renderYoloLine (l : YoloLine) : Str :=
  Nat.toDigits 10 l.class_id ++
    (' ' :: (format6 l.center_x ++
      (' ' :: (format6 l.center_y ++
        (' ' :: (format6 l.width_rel ++
          (' ' :: format6 l.height_rel)))))))

lemma format6_eq (q : ℚ) (n : ℕ) (h : ⌊q * 1000000 + 1/2⌋ = (n : ℤ)) :
    format6 q
      = Nat.toDigits 10 (n / 1000000) ++ ('.' :: padZeros 6 (Nat.toDigits 10 (n % 1000000))) := by
  simp only [format6, h, Int.toNat_natCast]

/-- Claim C8: the conversion emits centerX = (x + w/2)/imgW,
centerY = (y + h/2)/imgH, relW = w/imgW, relH = h/imgH, each rendered with 6
decimal digits; in particular a 1000x1000 image with box [100, 200, 50, 80]
renders as the line "<id> 0.125000 0.240000 0.050000 0.080000". -/
theorem yolo_conversion_values (cid : ℕ) (x y w h imgW imgH : ℚ)
    (hW : 0 < imgW) (hH : 0 < imgH) :
    ((mkYoloLine cid imgW imgH (x, y, w, h)).class_id = cid ∧
     (mkYoloLine cid imgW imgH (x, y, w, h)).center_x = (x + w / 2) / imgW ∧
     (mkYoloLine cid imgW imgH (x, y, w, h)).center_y = (y + h / 2) / imgH ∧
     (mkYoloLine cid imgW imgH (x, y, w, h)).width_rel = w / imgW ∧
     (mkYoloLine cid imgW imgH (x, y, w, h)).height_rel = h / imgH) ∧
    renderYoloLine (mkYoloLine cid 1000 1000 (100, 200, 50, 80)) =
      Nat.toDigits 10 cid ++ (" 0.125000 0.240000 0.050000 0.080000".data) := by
  have f1 : format6 (((100 : ℚ) + 50 / 2) / 1000) = "0.125000".data := by
    rw [format6_eq _ 125000 (by
      rw [Int.floor_eq_iff]
      constructor <;> norm_num)]
    decide
  have f2 : format6 (((200 : ℚ) + 80 / 2) / 1000) = "0.240000".data := by
    rw [format6_eq _ 240000 (by
      rw [Int.floor_eq_iff]
      constructor <;> norm_num)]
    decide
  have f3 : format6 ((50 : ℚ) / 1000) = "0.050000".data := by
    rw [format6_eq _ 50000 (by
      rw [Int.floor_eq_iff]
      constructor <;> norm_num)]
    decide
  have f4 : format6 ((80 : ℚ) / 1000) = "0.080000".data := by
    rw [format6_eq _ 80000 (by
      rw [Int.floor_eq_iff]
      constructor <;> norm_num)]
    decide
  refine ⟨⟨rfl, rfl, rfl, rfl, rfl⟩, ?_⟩
  show Nat.toDigits 10 cid ++
      (' ' :: (format6 (((100 : ℚ) + 50 / 2) / 1000) ++
        (' ' :: (format6 (((200 : ℚ) + 80 / 2) / 1000) ++
          (' ' :: (format6 ((50 : ℚ) / 1000) ++
            (' ' :: format6 ((80 : ℚ) / 1000)))))))) =
    Nat.toDigits 10 cid ++ (" 0.125000 0.240000 0.050000 0.080000".data)
  rw [f1, f2, f3, f4]
  congr 1

/-- Witness for C8 at class id 3, box (1, 2, 3, 4) on a 1000x1000 image. -/
theorem yolo_conversion_values_witness :
    ((0 : ℚ) < 1000 ∧ (0 : ℚ) < 1000) ∧
    (((mkYoloLine 3 1000 1000 (1, 2, 3, 4)).class_id = 3 ∧
      (mkYoloLine 3 1000 1000 (1, 2, 3, 4)).center_x = (1 + 3 / 2) / 1000 ∧
      (mkYoloLine 3 1000 1000 (1, 2, 3, 4)).center_y = (2 + 4 / 2) / 1000 ∧
      (mkYoloLine 3 1000 1000 (1, 2, 3, 4)).width_rel = 3 / 1000 ∧
      (mkYoloLine 3 1000 1000 (1, 2, 3, 4)).height_rel = 4 / 1000) ∧
     renderYoloLine (mkYoloLine 3 1000 1000 (100, 200, 50, 80)) =
       Nat.toDigits 10 3 ++ (" 0.125000 0.240000 0.050000 0.080000".data)) :=
  ⟨⟨by norm_num, by norm_num⟩,
   yolo_conversion_values 3 1 2 3 4 1000 1000 (by norm_num) (by norm_num)⟩

/- ===================================================================
   Quality Analyzer
   (src/data_pipeline/data_preprocess/modules/data_analyzer.py)
   =================================================================== -/

/-- `np.mean` of a list of counts. -/
noncomputable def listMean (counts : List ℝ) : ℝ := counts.sum / counts.length

/-- `np.std` (population standard deviation) of a list of counts. -/
noncomputable def listStd (counts : List ℝ) : ℝ :=
  Real.sqrt ((counts.map (fun c => (c - listMean counts) ^ 2)).sum / counts.length)

/-- Python `round(x, 3)`. (Mathlib's `round` is half-up while Python floats
round half-even; the two agree away from exact decimal midpoints, and no
theorem below touches a midpoint.) -/
noncomputable def pyRound3 (x : ℝ) : ℝ := ((round (x * 1000) : ℤ) : ℝ) / 1000

/-- `_calculate_class_balance_score(class_dist)` from data_analyzer.py:
0 for an empty histogram; otherwise `round(1 / (1 + cv), 3)` where
`cv = std_count / mean_count if mean_count > 0 else float('inf')` — in the
infinite case `1 / (1 + cv)` is 0.0 and rounds to 0, which the model folds
into the else branch. -/
noncomputable def _calculate_class_balance_score (class_dist : List (Str × ℕ)) : ℝ :=
  if class_dist = [] then 0
  else
    let counts : List ℝ := class_dist.map (fun e => (e.2 : ℝ))
    if 0 < listMean counts then pyRound3 (1 / (1 + listStd counts / listMean counts))
    else 0

lemma listMean_one_three : listMean [(1 : ℝ), 3] = 2 := by
  simp [listMean]
  norm_num

lemma listStd_one_three : listStd [(1 : ℝ), 3] = 1 := by
  rw [listStd, listMean_one_three]
  have : (([(1 : ℝ), 3].map (fun c => (c - 2) ^ 2)).sum / ([(1 : ℝ), 3].length : ℝ)) = 1 := by
    simp
    norm_num
  rw [this, Real.sqrt_one]

/-- Claim C7 counterexample: on the histogram {a: 1, b: 3} the code returns
round(2/3, 3) = 0.667 while 1/(1 + stddev/mean) = 2/3; the two differ, so
the returned score does not equal the claimed closed form (the code rounds
the score to 3 decimal places before returning it). -/
theorem balance_score_rounding_counterexample :
    _calculate_class_balance_score [("a".data, 1), ("b".data, 3)] = 667 / 1000 ∧
    1 / (1 + listStd [(1 : ℝ), 3] / listMean [(1 : ℝ), 3]) = 2 / 3 ∧
    _calculate_class_balance_score [("a".data, 1), ("b".data, 3)]
      ≠ 1 / (1 + listStd [(1 : ℝ), 3] / listMean [(1 : ℝ), 3]) := by
  have hcast : (([("a".data, 1), ("b".data, 3)] : List (Str × ℕ)).map (fun e => ((e.2 : ℕ) : ℝ)))
      = [(1 : ℝ), 3] := by norm_num
  have hraw : 1 / (1 + listStd [(1 : ℝ), 3] / listMean [(1 : ℝ), 3]) = 2 / 3 := by
    rw [listStd_one_three, listMean_one_three]
    norm_num
  have hfloor : (⌊(2 : ℝ) / 3 * 1000 + 1 / 2⌋ : ℤ) = 667 := by
    rw [Int.floor_eq_iff]
    constructor <;> norm_num
  have hscore : _calculate_class_balance_score [("a".data, 1), ("b".data, 3)] = 667 / 1000 := by
    rw [_calculate_class_balance_score, if_neg (by simp)]
    simp only [hcast]
    rw [if_pos (by rw [listMean_one_three]; norm_num), hraw, pyRound3, round_eq, hfloor]
    norm_num
  refine ⟨hscore, hraw, ?_⟩
  rw [hscore, hraw]
  norm_num

/-- Claim C7 amended: the score is 0 on the empty histogram; for a nonempty
histogram with positive counts the unrounded value 1/(1 + stddev/mean) lies
in (0, 1] and the returned score is exactly that value rounded to 3 decimal
places — hence within [0, 1] (extreme skews can round down to 0) — and when
all counts are equal the returned score is exactly 1. -/
theorem balance_score_spec (class_dist : List (Str × ℕ))
    (hne : class_dist ≠ []) (hpos : ∀ e ∈ class_dist, 0 < e.2) :
    (_calculate_class_balance_score [] = 0) ∧
    (0 < 1 / (1 + listStd (class_dist.map (fun e => (e.2 : ℝ)))
        / listMean (class_dist.map (fun e => (e.2 : ℝ)))) ∧
     1 / (1 + listStd (class_dist.map (fun e => (e.2 : ℝ)))
        / listMean (class_dist.map (fun e => (e.2 : ℝ)))) ≤ 1) ∧
    (_calculate_class_balance_score class_dist
      = pyRound3 (1 / (1 + listStd (class_dist.map (fun e => (e.2 : ℝ)))
          / listMean (class_dist.map (fun e => (e.2 : ℝ)))))) ∧
    (0 ≤ _calculate_class_balance_score class_dist ∧
     _calculate_class_balance_score class_dist ≤ 1) ∧
    ((∃ c : ℕ, ∀ e ∈ class_dist, e.2 = c) →
      _calculate_class_balance_score class_dist = 1) := by
  have hlenpos : (0 : ℝ) < (class_dist.map (fun e => (e.2 : ℝ))).length := by
    rw [List.length_map]
    have : class_dist.length ≠ 0 := fun h => hne (List.length_eq_zero.mp h)
    have : 0 < class_dist.length := Nat.pos_of_ne_zero this
    exact_mod_cast this
  have hsumpos : (0 : ℝ) < (class_dist.map (fun e => (e.2 : ℝ))).sum := by
    refine List.sum_pos _ ?_ ?_
    · intro x hx
      rcases List.mem_map.mp hx with ⟨e, he, hex⟩
      rw [← hex]
      exact_mod_cast hpos e he
    · intro h
      exact hne (List.map_eq_nil_iff.mp h)
  have hmean : 0 < listMean (class_dist.map (fun e => (e.2 : ℝ))) :=
    div_pos hsumpos hlenpos
  have hstd : 0 ≤ listStd (class_dist.map (fun e => (e.2 : ℝ))) := Real.sqrt_nonneg _
  have hcv : 0 ≤ listStd (class_dist.map (fun e => (e.2 : ℝ)))
      / listMean (class_dist.map (fun e => (e.2 : ℝ))) := div_nonneg hstd hmean.le
  have hden : (0 : ℝ) < 1 + listStd (class_dist.map (fun e => (e.2 : ℝ)))
      / listMean (class_dist.map (fun e => (e.2 : ℝ))) := by linarith
  have hrawpos : 0 < 1 / (1 + listStd (class_dist.map (fun e => (e.2 : ℝ)))
      / listMean (class_dist.map (fun e => (e.2 : ℝ)))) := by positivity
  have hrawle : 1 / (1 + listStd (class_dist.map (fun e => (e.2 : ℝ)))
      / listMean (class_dist.map (fun e => (e.2 : ℝ)))) ≤ 1 := by
    rw [div_le_one hden]
    linarith
  have hscore : _calculate_class_balance_score class_dist
      = pyRound3 (1 / (1 + listStd (class_dist.map (fun e => (e.2 : ℝ)))
          / listMean (class_dist.map (fun e => (e.2 : ℝ))))) := by
    rw [_calculate_class_balance_score, if_neg hne]
    rw [if_pos hmean]
  have hroundmem : ∀ r : ℝ, 0 < r → r ≤ 1 → 0 ≤ pyRound3 r ∧ pyRound3 r ≤ 1 := by
    intro r hr0 hr1
    have h1 : (0 : ℤ) ≤ round (r * 1000) := by
      rw [round_eq]
      rw [Int.le_floor]
      push_cast
      nlinarith
    have h2 : round (r * 1000) ≤ 1000 := by
      rw [round_eq]
      have : r * 1000 + 1 / 2 < 1001 := by nlinarith
      have hf : (⌊r * 1000 + 1 / 2⌋ : ℤ) < 1001 := by
        rw [Int.floor_lt]
        push_cast
        linarith
      omega
    constructor
    · rw [pyRound3]
      positivity
    · rw [pyRound3]
      rw [div_le_one (by norm_num)]
      exact_mod_cast h2
  refine ⟨by rw [_calculate_class_balance_score, if_pos rfl], ⟨hrawpos, hrawle⟩, hscore, ?_, ?_⟩
  · rw [hscore]
    exact hroundmem _ hrawpos hrawle
  · rintro ⟨c, hc⟩
    have hcpos : 0 < c := by
      rcases List.exists_mem_of_ne_nil class_dist hne with ⟨e, he⟩
      rw [← hc e he]
      exact hpos e he
    have hconst : class_dist.map (fun e => (e.2 : ℝ))
        = List.replicate class_dist.length (c : ℝ) := by
      rw [List.map_congr_left (fun e he => by rw [hc e he])]
      exact List.map_const class_dist (c : ℝ)
    have hmean' : listMean (class_dist.map (fun e => (e.2 : ℝ))) = (c : ℝ) := by
      rw [listMean, hconst, List.sum_replicate, List.length_replicate, nsmul_eq_mul,
        mul_comm, mul_div_assoc]
      rw [div_self (by
        have : class_dist.length ≠ 0 := fun h => hne (List.length_eq_zero.mp h)
        exact_mod_cast this)]
      ring
    have hstd' : listStd (class_dist.map (fun e => (e.2 : ℝ))) = 0 := by
      rw [listStd, hmean', hconst, List.map_replicate]
      have : ((c : ℝ) - (c : ℝ)) ^ 2 = 0 := by ring
      rw [this, List.sum_replicate, smul_zero, zero_div, Real.sqrt_zero]
    rw [hscore, hstd', hmean', zero_div, add_zero, div_one, pyRound3, one_mul]
    have hr1000 : (round (1000 : ℝ) : ℤ) = 1000 := by
      rw [round_eq, Int.floor_eq_iff]
      constructor <;> norm_num
    rw [hr1000]
    norm_num

/-- Witness for C7-amended at the histogram {a: 10, b: 10, c: 10}: score
exactly 1. -/
theorem balance_score_spec_witness :
    (([("a".data, 10), ("b".data, 10), ("c".data, 10)] : List (Str × ℕ)) ≠ [] ∧
     (∀ e ∈ ([("a".data, 10), ("b".data, 10), ("c".data, 10)] : List (Str × ℕ)), 0 < e.2)) ∧
    _calculate_class_balance_score [("a".data, 10), ("b".data, 10), ("c".data, 10)] = 1 :=
  ⟨⟨by decide, by decide⟩,
   (balance_score_spec [("a".data, 10), ("b".data, 10), ("c".data, 10)]
     (by decide) (by decide)).2.2.2.2 ⟨10, by decide⟩⟩

end DrugPipeline
